import Mathlib

/-!
Verification of the jcblock call-blocking daemon (jcblock.c, tones.c,
tonesRPi.c) against its natural-language specification.

The C code is shallowly embedded: files are lists of lines (a line is the
byte string an `fgets` call returns, `List Char`), the normalized caller-ID
record is a `List Char`, and the observable I/O failures of the list-store
functions (re-open, the initial ftell, the write-back `fputs` and its
`fflush`) are injected through an explicit environment of success flags.
Modem commands issued by `check_blacklist` and the ring/star-key path of
`wait_for_response` are recorded as an explicit action trace.
-/

set_option maxRecDepth 16000

namespace Jcblock

/-- A line of a list file, exactly as `fgets` returns it (trailing newline
included; the C buffers never contain an interior NUL). -/
abbrev Line := List Char

/-! ### C string primitives -/

/-- `tokenAtHead needle hay` is true when `needle` is an initial segment of
`hay`; the building block of `strstr`. -/
def tokenAtHead : List Char → List Char → Bool
  | [], _ => true
  | _ :: _, [] => false
  | a :: as, b :: bs => a == b && tokenAtHead as bs

/-- `containsSub hay needle` models `strstr(hay, needle) != NULL`: `needle`
occurs at the head of some suffix of `hay`. -/
def containsSub : List Char → List Char → Bool
  | [], needle => tokenAtHead needle []
  | b :: bs, needle => tokenAtHead needle (b :: bs) || containsSub bs needle

/-- `strstrPos hay needle` models `strstr(hay, needle) - hay`: the index of
the first occurrence of `needle` in `hay`, if any. -/
def strstrPos : List Char → List Char → Option Nat
  | [], needle => if tokenAtHead needle [] then some 0 else none
  | b :: bs, needle =>
    if tokenAtHead needle (b :: bs) then some 0
    else (strstrPos bs needle).map (· + 1)

/-- `strtok(line, "?")` on a fresh buffer: skip leading `?` delimiters; if
nothing is left return NULL, otherwise the characters up to the next `?`
(or the end of the string). -/
def strtokQ (l : Line) : Option (List Char) :=
  let t := l.dropWhile (· = '?')
  if t.isEmpty then none else some (t.takeWhile (· ≠ '?'))

/-! ### List-store data model -/

/-- The `"DATE = "` pattern searched in the caller-ID record; the six date
digits sit seven characters past the match (`dateptr[7]`). -/
def datePat : List Char := "DATE = ".toList

/-- A line the scan loop skips with `continue` before tokenizing: comment
(`#` first), blank (`\n` first), too short to hold the date (length < 26),
no `?` terminator, or `?` past offset 18 (jcblock.c lines 631-669/783-822). -/
def skipLine (l : Line) : Bool :=
  decide (l.head? = some '#') || decide (l.head? = some '\n') ||
  decide (l.length < 26) || !(l.contains '?') || decide (18 < l.indexOf '?')

/-- In-place date update of a matched line: the caller-ID date `d` (at most
six bytes) overwrites the bytes at offsets 19.. of the line; everything
else on disk is untouched (`strncpy(&bufsave[19], call_date, 6)` followed by
`fseek` to the line start and `fputs`). -/
def touchDate (l : Line) (d : List Char) : Line :=
  l.take 19 ++ d ++ l.drop (19 + d.length)

/-- Success flags for the I/O operations a lookup performs, in the order the
code performs them: the `fopen` re-open, the initial `ftell`, the write-back
`fputs` of the dated line, and its `fflush`. -/
structure Env where
  reopenOk : Bool
  ftellOk : Bool
  putsOk : Bool
  flushOk : Bool

/-- The all-success environment. -/
def okEnv : Env := ⟨true, true, true, true⟩

/-- How a scan of the line list ended. -/
inductive Outcome
  | matched
  | nomatch
  | ioerror
deriving DecidableEq, Repr

/-- Modem-side actions the daemon performs, in the order they are issued. -/
inductive ModemAct
  | dtrPulseNoCID
  | pause250
  | ath1
  | sleep1s
  | ath0
  | dtrPulseCID
  | truncateHook
  | atz
  | vcid
deriving DecidableEq, Repr

/-- The disconnect sequence `check_blacklist` performs on a match, before it
looks for the `DATE = ` field (jcblock.c lines 848-870). -/
def disconnectSeq : List ModemAct :=
  [.dtrPulseNoCID, .pause250, .ath1, .sleep1s, .ath0, .sleep1s, .dtrPulseCID]

/-- The scan loop of `check_whitelist` (jcblock.c lines 623-722) over the
remaining lines. Returns the outcome, the file contents after the call, and
the suffix of lines the loop never read. -/
def scanWh (env : Env) (cs : List Char) : List Line → Outcome × List Line × List Line
  | [] => (.nomatch, [], [])
  | l :: rest =>
    if skipLine l then
      let r := scanWh env cs rest
      (r.1, l :: r.2.1, r.2.2)
    else
      match strtokQ l with
      | none => (.ioerror, l :: rest, rest)
      | some tok =>
        if containsSub cs tok then
          match strstrPos cs datePat with
          | none => (.ioerror, l :: rest, rest)
          | some p =>
            let d := (cs.drop (p + 7)).take 6
            if env.putsOk then
              if env.flushOk then (.matched, touchDate l d :: rest, rest)
              else (.ioerror, touchDate l d :: rest, rest)
            else (.ioerror, l :: rest, rest)
        else
          let r := scanWh env cs rest
          (r.1, l :: r.2.1, r.2.2)

/-- `check_whitelist` (jcblock.c lines 583-726): re-open failure and initial
ftell failure return TRUE immediately; a scan that ends in `matched` or in
any I/O error returns TRUE (accept the call); only a completed scan without
a match returns FALSE. The second component is the file after the call. -/
def check_whitelist (env : Env) (cs : List Char) (file : List Line) :
    Bool × List Line :=
  if !env.reopenOk then (true, file)
  else if !env.ftellOk then (true, file)
  else
    match scanWh env cs file with
    | (.nomatch, f, _) => (false, f)
    | (_, f, _) => (true, f)

/-- The scan loop of `check_blacklist` (jcblock.c lines 775-910). Identical
to the whitelist loop except that, on a match, the whole modem disconnect
sequence runs before the `DATE = ` check; the fourth component records the
modem actions issued. -/
def scanBl (env : Env) (cs : List Char) :
    List Line → Outcome × List Line × List Line × List ModemAct
  | [] => (.nomatch, [], [], [])
  | l :: rest =>
    if skipLine l then
      let r := scanBl env cs rest
      (r.1, l :: r.2.1, r.2.2.1, r.2.2.2)
    else
      match strtokQ l with
      | none => (.ioerror, l :: rest, rest, [])
      | some tok =>
        if containsSub cs tok then
          match strstrPos cs datePat with
          | none => (.ioerror, l :: rest, rest, disconnectSeq)
          | some p =>
            let d := (cs.drop (p + 7)).take 6
            if env.putsOk then
              if env.flushOk then (.matched, touchDate l d :: rest, rest, disconnectSeq)
              else (.ioerror, touchDate l d :: rest, rest, disconnectSeq)
            else (.ioerror, l :: rest, rest, disconnectSeq)
        else
          let r := scanBl env cs rest
          (r.1, l :: r.2.1, r.2.2.1, r.2.2.2)

/-- `check_blacklist` (jcblock.c lines 734-914): every failure path returns
FALSE; only a match whose date update fully succeeds returns TRUE. The third
component is the modem action trace. -/
def check_blacklist (env : Env) (cs : List Char) (file : List Line) :
    Bool × List Line × List ModemAct :=
  if !env.reopenOk then (false, file, [])
  else if !env.ftellOk then (false, file, [])
  else
    match scanBl env cs file with
    | (.matched, f, _, a) => (true, f, a)
    | (_, f, _, a) => (false, f, a)

/-- A line the scan loop moves past without deciding: skipped, or tokenized
with a token that does not occur in the caller-ID record. -/
def lineContinues (cs : List Char) (l : Line) : Bool :=
  skipLine l ||
    (match strtokQ l with
     | none => false
     | some tok => !containsSub cs tok)

/-- A line at which the scan loop stops with an I/O-error bias: `strtok`
fails, or the line matches and the `DATE = ` field is missing, or the
write-back or its flush fails. -/
def lineIOError (env : Env) (cs : List Char) (l : Line) : Bool :=
  !skipLine l &&
    (match strtokQ l with
     | none => true
     | some tok =>
       containsSub cs tok &&
         ((strstrPos cs datePat).isNone || !env.putsOk || !env.flushOk))

/-- A well-formed list line in the sense of the spec: long enough to hold
the date field, not a comment, not blank, with its `?` terminator at offset
at most 18. -/
def wellformedLine (l : Line) : Prop :=
  l.head? ≠ some '#' ∧ l.head? ≠ some '\n' ∧ 26 ≤ l.length ∧
    l.contains '?' = true ∧ l.indexOf '?' ≤ 18

instance (l : Line) : Decidable (wellformedLine l) := by
  unfold wellformedLine; infer_instance

/-- Byte offset of the start of the `i`-th line inside the file. -/
def lineOffset (file : List Line) (i : Nat) : Nat :=
  (((file.take i).map List.length).sum)

/-! ### `write_blacklist` (jcblock.c lines 932-1068) -/

/-- The `"NAME = "` pattern. -/
def namePat : List Char := "NAME = ".toList

/-- The `"NMBR = "` pattern. -/
def nmbrPat : List Char := "NMBR = ".toList

/-- The `"Cell Phone"` guard pattern. -/
def cellPat : List Char := "Cell Phone".toList

/-- The source-descriptor string written at offset 34. -/
def srcDesc : List Char := "*-KEY ENTRY".toList

/-- `fwrite` of `r` at byte offset `pos` of a file: bytes `pos..` are
overwritten and the file grows if the write passes its former end. -/
def writeRange (l : List Char) (pos : Nat) (r : List Char) : List Char :=
  l.take pos ++ r ++ l.drop (pos + r.length)

/-- The 80-byte blacklist entry `write_blacklist` builds (jcblock.c lines
962-1034): a space-filled buffer with `\n` at 0, the match token from 1
terminated by `?`, the caller-ID date (`callstr[9..14]`) at 20..25 and the
source descriptor, NUL-terminated by `strncpy`, at 34. The token is the
NMBR field read at the hard-coded offset 37 when the NAME field contains
"Cell Phone", and the NAME field otherwise; both widths are computed from
the actual field positions (negative C lengths are clamped at zero here;
the theorems assume the field layout that makes them nonnegative). -/
def buildEntry (cs : List Char) : Option (List Char) :=
  match strstrPos cs namePat, strstrPos cs nmbrPat with
  | some ni, some mi =>
    let nameStr := cs.drop (ni + 7)
    let nmbrLen : Nat := (((ni : Int) - 2) - ((mi : Int) + 7)).toNat
    let nameLen : Nat := ((nameStr.length : Int) - 3).toNat
    let e0 := writeRange (List.replicate 80 ' ') 0 ['\n']
    let e1 :=
      if containsSub nameStr cellPat then
        writeRange (writeRange e0 1 ((cs.drop 37).take nmbrLen)) (nmbrLen + 1) ['?']
      else
        writeRange (writeRange e0 1 (nameStr.take nameLen)) (nameLen + 1) ['?']
    let e2 := writeRange e1 20 ((cs.drop 9).take 6)
    let e3 := writeRange e2 34 (srcDesc ++ ['\x00'])
    some e3
  | _, _ => none

/-- `write_blacklist` (jcblock.c lines 932-1068). The file is flat bytes.
After the entry is built, only `strlen` of it is written — the bytes up to
the NUL that terminates the source descriptor. The last two bytes of the
file choose the write position: if the second-to-last is `\n` the write
starts two bytes before the end, else if the last is `\n` one byte before
the end, else at the end. `none` models the FALSE returns (re-open failure,
missing NAME or NMBR field, `fread` of the last two bytes failing). -/
def write_blacklist (reopenOk : Bool) (cs : List Char) (file : List Char) :
    Option (List Char) :=
  if !reopenOk then none
  else if file.length < 2 then none
  else
    match buildEntry cs with
    | none => none
    | some e =>
      let w := e.takeWhile (· ≠ '\x00')
      if file[file.length - 2]? = some '\n' then
        some (writeRange file (file.length - 2) w)
      else if file[file.length - 1]? = some '\n' then
        some (writeRange file (file.length - 1) w)
      else
        some (writeRange file file.length w)

/-- The match token of a built entry: the bytes between the leading `\n`
and the `?` terminator. -/
def tokenOfEntry (e : List Char) : List Char :=
  (e.drop 1).takeWhile (· ≠ '?')

/-! ### Caller-ID space normalization (jcblock.c lines 350-377) -/

/-- The `=`-spacing pass of `wait_for_response`: `prev` is the previous
character of the ORIGINAL buffer (`buffer[i-1]`; the caller supplies the
value read for index -1). For an `=` whose predecessor is not a space, a
space is emitted before it and, when the successor is not a space, one
after it; an `=` already preceded by a space is copied unchanged. Every
other character is copied. The successor of the last character reads the
NUL terminator, as the C does. -/
def insertEqSpaces (prev : Char) : List Char → List Char
  | [] => []
  | c :: rest =>
    if c = '=' then
      if prev ≠ ' ' then
        ' ' :: '=' ::
          ((if rest.headD '\x00' ≠ ' ' then [' '] else []) ++ insertEqSpaces c rest)
      else '=' :: insertEqSpaces c rest
    else c :: insertEqSpaces c rest

/-- Every `=` in the list is immediately preceded by a space. -/
def eqSpacedBefore (l : List Char) : Prop :=
  ∀ i, l[i + 1]? = some '=' → l[i]? = some ' '

/-! ### DTMF detector poll (tones.c lines 355-467, tonesRPi.c 376-490) -/

/-- The per-tone consecutive-hit counters, their `was` run-length saves, and
the beep-pair counter; all start at zero and are only incremented or reset,
so `Nat` is faithful to the C `int`s. -/
structure TonesState where
  numDetLo : Nat
  numDetHi : Nat
  numDetLoWas : Nat
  numDetHiWas : Nat
  numBeeps : Nat
deriving DecidableEq, Repr

/-- `DET_MIN` from tones.c / tonesRPi.c. -/
def DET_MIN : Nat := 10

/-- What a returning `tonesPoll` reported: FALSE, or TRUE from the
consecutive-hit branch, or TRUE from the second beep of the beep-pair
branch (the two TRUE branches print distinct messages in the C). -/
inductive PollResult
  | noDet
  | consecDet
  | beepDet
deriving DecidableEq, Repr

/-- The counter update both variants perform after the two Goertzel passes
(tones.c lines 405-423): a hit increments the tone's counter, a miss saves
it into the `was` counter and zeroes it. -/
def updateCounters (s : TonesState) (hitLo hitHi : Bool) : TonesState :=
  let s1 : TonesState :=
    if hitLo then ⟨s.numDetLo + 1, s.numDetHi, s.numDetLoWas, s.numDetHiWas, s.numBeeps⟩
    else ⟨0, s.numDetHi, s.numDetLo, s.numDetHiWas, s.numBeeps⟩
  if hitHi then ⟨s1.numDetLo, s1.numDetHi + 1, s1.numDetLoWas, s1.numDetHiWas, s1.numBeeps⟩
  else ⟨s1.numDetLo, 0, s1.numDetLoWas, s1.numDetHi, s1.numBeeps⟩

/-- The beep-pair window test on a saved run length: tones.c accepts 2 or 3
consecutive detections (`twoOrThree = true`), tonesRPi.c exactly 2. -/
def beepWindow (twoOrThree : Bool) (w : Nat) : Bool :=
  if twoOrThree then w == 2 || w == 3 else w == 2

/-- The decision part of `tonesPoll`, common to tones.c (`twoOrThree =
true`) and tonesRPi.c (`false`), applied after a successful audio read with
the two per-tone threshold results `hitLo`, `hitHi` (tones.c lines
405-467). -/
def tonesPoll (twoOrThree : Bool) (s : TonesState) (hitLo hitHi : Bool) :
    TonesState × PollResult :=
  let u := updateCounters s hitLo hitHi
  if DET_MIN ≤ u.numDetLo ∧ DET_MIN ≤ u.numDetHi then
    (⟨0, 0, 0, 0, u.numBeeps⟩, .consecDet)
  else if beepWindow twoOrThree u.numDetLoWas && beepWindow twoOrThree u.numDetHiWas then
    if u.numBeeps = 0 then (⟨u.numDetLo, u.numDetHi, 0, 0, 1⟩, .noDet)
    else (⟨0, 0, 0, 0, 0⟩, .beepDet)
  else (u, .noDet)

/-! ### One call through `wait_for_response` (jcblock.c lines 440-573) -/

/-- The observable result of handling one normalized caller-ID record:
the whitelist file afterwards (when one is configured), the blacklist file
afterwards (flat bytes), whether `check_blacklist` was invoked, the modem
action trace, and whether control entered the ring-polling `*`-key branch
instead of going straight back to the idle read. -/
structure CallOutcome where
  wh : Option (List Line)
  bl : List Char
  blScanned : Bool
  acts : List ModemAct
  starPath : Bool
deriving Repr

/-- One pass of `wait_for_response` after a caller-ID record `cs` has been
normalized and logged: whitelist lookup (when configured) with `continue`
on TRUE; otherwise blacklist lookup, and on TRUE `truncate_records` and
`continue`; otherwise the ring-poll/`*`-key branch, whose ring count and
detector verdict enter as the oracle inputs `rings` and `star` (the window
opens only at `rings = 3`, the ANS_MACHINE build of the source). -/
def wait_for_response_step (envW envB : Env) (reopenOkWr : Bool)
    (wh : Option (List Line)) (bl : List Line) (cs : List Char)
    (rings : Nat) (star : Bool) : CallOutcome :=
  let blacklistPhase : Option (List Line) → CallOutcome := fun whAfter =>
    let b := check_blacklist envB cs bl
    if b.1 then
      ⟨whAfter, b.2.1.flatten, true, b.2.2 ++ [.truncateHook], false⟩
    else if rings = 3 then
      let blAfter :=
        if star then (write_blacklist reopenOkWr cs b.2.1.flatten).getD b.2.1.flatten
        else b.2.1.flatten
      ⟨whAfter, blAfter, true, b.2.2 ++ [.ath1, .ath0, .ath1, .atz, .vcid], true⟩
    else
      ⟨whAfter, b.2.1.flatten, true, b.2.2, true⟩
  match wh with
  | some wfile =>
    let r := check_whitelist envW cs wfile
    if r.1 then ⟨some r.2, bl.flatten, false, [], false⟩
    else blacklistPhase (some r.2)
  | none => blacklistPhase none

/-! ### Basic lemmas about the string primitives -/

theorem tokenAtHead_iff (n h : List Char) :
    tokenAtHead n h = true ↔ ∃ t, n ++ t = h := by
  induction n generalizing h with
  | nil => simp [tokenAtHead]
  | cons a as ih =>
    cases h with
    | nil => simp [tokenAtHead]
    | cons b bs =>
      simp only [tokenAtHead, Bool.and_eq_true, beq_iff_eq, ih, List.cons_append,
        List.cons.injEq]
      constructor
      · rintro ⟨rfl, t, rfl⟩; exact ⟨t, rfl, rfl⟩
      · rintro ⟨t, rfl, rfl⟩; exact ⟨rfl, t, rfl⟩

theorem containsSub_iff (hay needle : List Char) :
    containsSub hay needle = true ↔ needle <:+: hay := by
  induction hay with
  | nil =>
    simp only [containsSub, tokenAtHead_iff]
    constructor
    · rintro ⟨t, ht⟩
      rcases List.append_eq_nil.mp ht with ⟨rfl, rfl⟩
      exact ⟨[], [], rfl⟩
    · rintro ⟨s, t, ht⟩
      rcases List.append_eq_nil.mp ht with ⟨hs, rfl⟩
      rcases List.append_eq_nil.mp hs with ⟨rfl, rfl⟩
      exact ⟨[], rfl⟩
  | cons b bs ih =>
    simp only [containsSub, Bool.or_eq_true, tokenAtHead_iff, ih]
    constructor
    · rintro (⟨t, ht⟩ | ⟨s, t, ht⟩)
      · exact ⟨[], t, by simpa using ht⟩
      · exact ⟨b :: s, t, by simpa using ht⟩
    · rintro ⟨s, t, hst⟩
      cases s with
      | nil => exact Or.inl ⟨t, by simpa using hst⟩
      | cons c s =>
        rcases List.cons.injEq .. ▸ hst with ⟨rfl, h2⟩
        exact Or.inr ⟨s, t, h2⟩

theorem strtokQ_of_head (l : Line) (c : Char) (h1 : l.head? = some c)
    (h2 : c ≠ '?') : strtokQ l = some (l.takeWhile (· ≠ '?')) := by
  cases l with
  | nil => simp at h1
  | cons a t =>
    simp only [List.head?_cons, Option.some.injEq] at h1
    subst h1
    simp [strtokQ, List.dropWhile_cons, h2]

/-- A well-formed line is not skipped by the scan loop. -/
theorem skipLine_eq_false_of_wf (l : Line) (hw : wellformedLine l) :
    skipLine l = false := by
  rcases hw with ⟨h1, h2, h3, h4, h5⟩
  have h4m : '?' ∈ l := by simpa using h4
  simp [skipLine, h1, h2, Nat.not_lt.mpr h3, h4m, Nat.not_lt.mpr h5]

/-! ### The scan loops ignore lines they moved past -/

theorem scanWh_append (env : Env) (cs : List Char) (pre ls : List Line)
    (h : ∀ l ∈ pre, lineContinues cs l = true) :
    scanWh env cs (pre ++ ls) =
      ((scanWh env cs ls).1, pre ++ (scanWh env cs ls).2.1,
        (scanWh env cs ls).2.2) := by
  induction pre with
  | nil => simp
  | cons l pre ih =>
    have hl : lineContinues cs l = true := h l (by simp)
    have hpre : ∀ l' ∈ pre, lineContinues cs l' = true := fun l' hm =>
      h l' (List.mem_cons_of_mem _ hm)
    rw [List.cons_append, scanWh]
    by_cases hs : skipLine l = true
    · simp [hs, ih hpre]
    · rw [lineContinues, Bool.or_eq_true] at hl
      rcases hl with hl | hl
      · exact absurd hl hs
      · cases htok : strtokQ l with
        | none => rw [htok] at hl; exact absurd hl (by simp)
        | some tok =>
          rw [htok, Bool.not_eq_eq_eq_not, Bool.not_true] at hl
          simp [hs, htok, hl, ih hpre]

theorem scanBl_append (env : Env) (cs : List Char) (pre ls : List Line)
    (h : ∀ l ∈ pre, lineContinues cs l = true) :
    scanBl env cs (pre ++ ls) =
      ((scanBl env cs ls).1, pre ++ (scanBl env cs ls).2.1,
        (scanBl env cs ls).2.2.1, (scanBl env cs ls).2.2.2) := by
  induction pre with
  | nil => simp
  | cons l pre ih =>
    have hl : lineContinues cs l = true := h l (by simp)
    have hpre : ∀ l' ∈ pre, lineContinues cs l' = true := fun l' hm =>
      h l' (List.mem_cons_of_mem _ hm)
    rw [List.cons_append, scanBl]
    by_cases hs : skipLine l = true
    · simp [hs, ih hpre]
    · rw [lineContinues, Bool.or_eq_true] at hl
      rcases hl with hl | hl
      · exact absurd hl hs
      · cases htok : strtokQ l with
        | none => rw [htok] at hl; exact absurd hl (by simp)
        | some tok =>
          rw [htok, Bool.not_eq_eq_eq_not, Bool.not_true] at hl
          simp [hs, htok, hl, ih hpre]

/-! ### Behavior of the scan loops at an erroring line -/

theorem scanWh_cons_ioerror (env : Env) (cs : List Char) (l : Line)
    (rest : List Line) (he : lineIOError env cs l = true) :
    (scanWh env cs (l :: rest)).1 = .ioerror ∧
      (scanWh env cs (l :: rest)).2.2 = rest := by
  rw [lineIOError, Bool.and_eq_true] at he
  obtain ⟨hns, he⟩ := he
  have hs : skipLine l = false := by simpa using hns
  cases htok : strtokQ l with
  | none => simp [scanWh, hs, htok]
  | some tok =>
    rw [htok, Bool.and_eq_true] at he
    obtain ⟨hct, he⟩ := he
    cases hdp : strstrPos cs datePat with
    | none => simp [scanWh, hs, htok, hct, hdp]
    | some p =>
      rw [hdp] at he
      simp only [Option.isNone_some, Bool.false_or, Bool.or_eq_true,
        Bool.not_eq_true'] at he
      rcases he with hpu | hfl
      · simp [scanWh, hs, htok, hct, hdp, hpu]
      · cases hpu : env.putsOk with
        | false => simp [scanWh, hs, htok, hct, hdp, hpu]
        | true => simp [scanWh, hs, htok, hct, hdp, hpu, hfl]

theorem scanBl_cons_ioerror (env : Env) (cs : List Char) (l : Line)
    (rest : List Line) (he : lineIOError env cs l = true) :
    (scanBl env cs (l :: rest)).1 = .ioerror ∧
      (scanBl env cs (l :: rest)).2.2.1 = rest := by
  rw [lineIOError, Bool.and_eq_true] at he
  obtain ⟨hns, he⟩ := he
  have hs : skipLine l = false := by simpa using hns
  cases htok : strtokQ l with
  | none => simp [scanBl, hs, htok]
  | some tok =>
    rw [htok, Bool.and_eq_true] at he
    obtain ⟨hct, he⟩ := he
    cases hdp : strstrPos cs datePat with
    | none => simp [scanBl, hs, htok, hct, hdp]
    | some p =>
      rw [hdp] at he
      simp only [Option.isNone_some, Bool.false_or, Bool.or_eq_true,
        Bool.not_eq_true'] at he
      rcases he with hpu | hfl
      · simp [scanBl, hs, htok, hct, hdp, hpu]
      · cases hpu : env.putsOk with
        | false => simp [scanBl, hs, htok, hct, hdp, hpu]
        | true => simp [scanBl, hs, htok, hct, hdp, hpu, hfl]

/-! ### Concrete data used by witnesses and counterexamples -/

/-- A standard normalized caller-ID record: `DATE = ` found at offset 2
(date digits at 9..14), NMBR value at offset 37, NAME value at offset 56. -/
def csStd : List Char :=
  "--DATE = 010125--TIME = 1030--NMBR = 5551234567--NAME = JUNK CALLER    --\n".toList

/-- A list line whose token `JUNK CALLER` occurs in `csStd`: `?` at offset
11, date field `010100` at offsets 19..24. -/
def entryJunk : Line := "JUNK CALLER?       010100 operator note\n".toList

/-! ## C1 -/

/-- C1: on every I/O error a lookup encounters — the re-open failing, the
initial ftell failing, strtok failing, the write-back of the dated line or
its flush failing, or the matched record lacking a `DATE = ` field — the
whitelist lookup returns match (TRUE) and the blacklist lookup returns
no-match (FALSE), immediately, leaving the lines after the erroring one
unread. -/
theorem C1_error_bias (envW envB : Env) (cs : List Char) (file : List Line)
    (pre : List Line) (l : Line) (rest : List Line) :
    (envW.reopenOk = false → check_whitelist envW cs file = (true, file)) ∧
    (envB.reopenOk = false → check_blacklist envB cs file = (false, file, [])) ∧
    (envW.reopenOk = true → envW.ftellOk = false →
      check_whitelist envW cs file = (true, file)) ∧
    (envB.reopenOk = true → envB.ftellOk = false →
      check_blacklist envB cs file = (false, file, [])) ∧
    ((∀ x ∈ pre, lineContinues cs x = true) → lineIOError envW cs l = true →
      envW.reopenOk = true → envW.ftellOk = true →
      (check_whitelist envW cs (pre ++ l :: rest)).1 = true ∧
      (scanWh envW cs (pre ++ l :: rest)).1 = .ioerror ∧
      (scanWh envW cs (pre ++ l :: rest)).2.2 = rest) ∧
    ((∀ x ∈ pre, lineContinues cs x = true) → lineIOError envB cs l = true →
      envB.reopenOk = true → envB.ftellOk = true →
      (check_blacklist envB cs (pre ++ l :: rest)).1 = false ∧
      (scanBl envB cs (pre ++ l :: rest)).1 = .ioerror ∧
      (scanBl envB cs (pre ++ l :: rest)).2.2.1 = rest) := by
  refine ⟨fun h => by simp [check_whitelist, h],
    fun h => by simp [check_blacklist, h],
    fun h1 h2 => by simp [check_whitelist, h1, h2],
    fun h1 h2 => by simp [check_blacklist, h1, h2], ?_, ?_⟩
  · intro hpre herr h1 h2
    have hsc := scanWh_append envW cs pre (l :: rest) hpre
    have hh := scanWh_cons_ioerror envW cs l rest herr
    refine ⟨?_, by rw [hsc]; exact hh.1, by rw [hsc]; exact hh.2⟩
    rw [check_whitelist]
    simp only [h1, h2, Bool.not_true, Bool.false_eq_true, if_false]
    have hio : (scanWh envW cs (pre ++ l :: rest)).1 = .ioerror := by
      rw [hsc]; exact hh.1
    rcases hfull : scanWh envW cs (pre ++ l :: rest) with ⟨o, f, u⟩
    rw [hfull] at hio
    simp only at hio
    subst hio
    simp
  · intro hpre herr h1 h2
    have hsc := scanBl_append envB cs pre (l :: rest) hpre
    have hh := scanBl_cons_ioerror envB cs l rest herr
    refine ⟨?_, by rw [hsc]; exact hh.1, by rw [hsc]; exact hh.2⟩
    rw [check_blacklist]
    simp only [h1, h2, Bool.not_true, Bool.false_eq_true, if_false]
    have hio : (scanBl envB cs (pre ++ l :: rest)).1 = .ioerror := by
      rw [hsc]; exact hh.1
    rcases hfull : scanBl envB cs (pre ++ l :: rest) with ⟨o, f, u, a⟩
    rw [hfull] at hio
    simp only at hio
    subst hio
    simp

/-- Witness for C1 at a concrete input: a whitelist entry matching `csStd`
whose write-back fails makes `check_whitelist` return TRUE with the scan
stopped at that line. -/
theorem C1_error_bias_witness :
    (check_whitelist ⟨true, true, false, true⟩ csStd [entryJunk]).1 = true ∧
    (scanWh ⟨true, true, false, true⟩ csStd [entryJunk]).1 = .ioerror ∧
    (scanWh ⟨true, true, false, true⟩ csStd [entryJunk]).2.2 = [] :=
  (C1_error_bias ⟨true, true, false, true⟩ okEnv csStd [] [] entryJunk
    []).2.2.2.2.1 (fun x hx => absurd hx (List.not_mem_nil x)) (by decide)
    rfl rfl

/-! ## C2 -/

/-- C2 (amended): for a well-formed line whose first byte is not `?`, both
lookups report the line as a match exactly when the bytes of the line
strictly before its first `?` occur as a contiguous substring of the
normalized caller-ID record (for lines that do start with `?`, `strtok`
skips the leading `?` characters, so the compared token is not the — empty —
byte string before the terminator). -/
theorem C2_match_semantics (env : Env) (cs : List Char) (l : Line)
    (hw : wellformedLine l) (hq : l.head? ≠ some '?')
    (h1 : env.reopenOk = true) (h2 : env.ftellOk = true)
    (h3 : env.putsOk = true) (h4 : env.flushOk = true)
    (hdate : (strstrPos cs datePat).isSome = true) :
    ((check_whitelist env cs [l]).1 = true ↔ l.takeWhile (· ≠ '?') <:+: cs) ∧
    ((check_blacklist env cs [l]).1 = true ↔ l.takeWhile (· ≠ '?') <:+: cs) := by
  have hskip : skipLine l = false := skipLine_eq_false_of_wf l hw
  have hne : l ≠ [] := by
    intro h; rw [h] at hw; exact absurd hw.2.2.1 (by decide)
  obtain ⟨c, t, rfl⟩ := List.exists_cons_of_ne_nil hne
  have hc : c ≠ '?' := fun h => hq (by simp [h])
  have htok := strtokQ_of_head (c :: t) c (by simp) hc
  obtain ⟨p, hp⟩ := Option.isSome_iff_exists.mp hdate
  simp only [ne_eq, decide_not] at htok ⊢
  rw [← containsSub_iff]
  cases hct : containsSub cs ((c :: t).takeWhile (fun x => !decide (x = '?'))) with
  | true =>
    constructor
    · rw [check_whitelist]
      simp [h1, h2, scanWh, hskip, htok, hct, hp, h3, h4]
    · rw [check_blacklist]
      simp [h1, h2, scanBl, hskip, htok, hct, hp, h3, h4]
  | false =>
    constructor
    · rw [check_whitelist]
      simp [h1, h2, scanWh, hskip, htok, hct]
    · rw [check_blacklist]
      simp [h1, h2, scanBl, hskip, htok, hct]

/-- Witness for C2 at a concrete input: the entry `JUNK CALLER?…` matches
the record `csStd` since its token occurs in the record. -/
theorem C2_match_semantics_witness :
    (check_whitelist okEnv csStd [entryJunk]).1 = true :=
  ((C2_match_semantics okEnv csStd entryJunk (by decide) (by decide) rfl rfl
    rfl rfl (by decide)).1).mpr ⟨"--DATE = 010125--TIME = 1030--NMBR = 5551234567--NAME = ".toList,
      "    --\n".toList, by decide⟩

/-- A well-formed line (length 27, `?` terminator at offset 0) that starts
with `?`. -/
def qLine : Line := ('?' :: List.replicate 25 'A') ++ ['\n']

/-- A normalized record without any 25-fold `A` run. -/
def csC2 : List Char := "--NMBR = 5551234--\n".toList

/-- Counterexample to C2 as stated: `qLine` is well-formed, the bytes
before its `?` terminator form the empty string — a substring of every
record — yet neither lookup reports a match (the code compares the strtok
token `AAAAAAAAAAAAAAAAAAAAAAAAA\n` instead). -/
theorem C2_counterexample :
    wellformedLine qLine ∧
    qLine.takeWhile (· ≠ '?') = [] ∧
    ([] : List Char) <:+: csC2 ∧
    (check_whitelist okEnv csC2 [qLine]).1 = false ∧
    (check_blacklist okEnv csC2 [qLine]).1 = false :=
  ⟨by decide, by decide, ⟨[], csC2, rfl⟩, by decide, by decide⟩

/-! ### The check functions at a matching line -/

theorem check_whitelist_match_eq (env : Env) (cs : List Char)
    (pre rest : List Line) (l : Line) (tok : List Char) (p : Nat)
    (h1 : env.reopenOk = true) (h2 : env.ftellOk = true)
    (h3 : env.putsOk = true) (h4 : env.flushOk = true)
    (hpre : ∀ x ∈ pre, lineContinues cs x = true)
    (hskip : skipLine l = false)
    (htok : strtokQ l = some tok)
    (hmatch : containsSub cs tok = true)
    (hdate : strstrPos cs datePat = some p) :
    check_whitelist env cs (pre ++ l :: rest) =
      (true, pre ++ touchDate l ((cs.drop (p + 7)).take 6) :: rest) := by
  have hsc := scanWh_append env cs pre (l :: rest) hpre
  have hhead : scanWh env cs (l :: rest) =
      (.matched, touchDate l ((cs.drop (p + 7)).take 6) :: rest, rest) := by
    rw [scanWh]
    simp [hskip, htok, hmatch, hdate, h3, h4]
  rw [check_whitelist]
  simp only [h1, h2, Bool.not_true, Bool.false_eq_true, if_false]
  rw [hsc, hhead]

theorem check_blacklist_match_eq (env : Env) (cs : List Char)
    (pre rest : List Line) (l : Line) (tok : List Char) (p : Nat)
    (h1 : env.reopenOk = true) (h2 : env.ftellOk = true)
    (h3 : env.putsOk = true) (h4 : env.flushOk = true)
    (hpre : ∀ x ∈ pre, lineContinues cs x = true)
    (hskip : skipLine l = false)
    (htok : strtokQ l = some tok)
    (hmatch : containsSub cs tok = true)
    (hdate : strstrPos cs datePat = some p) :
    check_blacklist env cs (pre ++ l :: rest) =
      (true, pre ++ touchDate l ((cs.drop (p + 7)).take 6) :: rest,
        disconnectSeq) := by
  have hsc := scanBl_append env cs pre (l :: rest) hpre
  have hhead : scanBl env cs (l :: rest) =
      (.matched, touchDate l ((cs.drop (p + 7)).take 6) :: rest, rest,
        disconnectSeq) := by
    rw [scanBl]
    simp [hskip, htok, hmatch, hdate, h3, h4]
  rw [check_blacklist]
  simp only [h1, h2, Bool.not_true, Bool.false_eq_true, if_false]
  rw [hsc, hhead]

/-- A blacklist match on a record without a `DATE = ` field: the disconnect
sequence has run, but the lookup returns FALSE and the file is unchanged. -/
theorem check_blacklist_nodate_eq (env : Env) (cs : List Char)
    (pre rest : List Line) (l : Line) (tok : List Char)
    (h1 : env.reopenOk = true) (h2 : env.ftellOk = true)
    (hpre : ∀ x ∈ pre, lineContinues cs x = true)
    (hskip : skipLine l = false)
    (htok : strtokQ l = some tok)
    (hmatch : containsSub cs tok = true)
    (hdate : strstrPos cs datePat = none) :
    check_blacklist env cs (pre ++ l :: rest) =
      (false, pre ++ l :: rest, disconnectSeq) := by
  have hsc := scanBl_append env cs pre (l :: rest) hpre
  have hhead : scanBl env cs (l :: rest) =
      (.ioerror, l :: rest, rest, disconnectSeq) := by
    rw [scanBl]
    simp [hskip, htok, hmatch, hdate]
  rw [check_blacklist]
  simp only [h1, h2, Bool.not_true, Bool.false_eq_true, if_false]
  rw [hsc, hhead]

/-! ## C3 -/

/-- The in-place date write changes exactly the bytes at offsets 19..24 of a
line that is long enough, and keeps its length. -/
theorem touchDate_facts (l : Line) (d : List Char) (hd : d.length = 6)
    (h26 : 26 ≤ l.length) :
    (touchDate l d).length = l.length ∧
    (touchDate l d).take 19 = l.take 19 ∧
    (touchDate l d).drop 25 = l.drop 25 ∧
    ((touchDate l d).drop 19).take 6 = d := by
  have hta : (l.take 19).length = 19 := by rw [List.length_take]; omega
  refine ⟨?_, ?_, ?_, ?_⟩
  · rw [touchDate]
    simp only [List.length_append, List.length_take, List.length_drop, hd]
    omega
  · rw [touchDate, List.append_assoc, List.take_left' hta]
  · rw [touchDate, hd]
    have h25 : (l.take 19 ++ d).length = 25 := by
      rw [List.length_append, hta, hd]
    rw [List.drop_left' h25]
  · rw [touchDate, List.append_assoc, List.drop_left' hta, List.take_left' hd]

/-- C3: a successful match in `check_whitelist` or `check_blacklist` writes
the matched line back at its original position with exactly the bytes at
offsets 19..24 replaced by the caller-ID's six date digits; the line length
is unchanged and the byte offset of every line of the file is unchanged. -/
theorem C3_date_update (env : Env) (cs : List Char) (pre rest : List Line)
    (l : Line) (tok : List Char) (p : Nat)
    (h1 : env.reopenOk = true) (h2 : env.ftellOk = true)
    (h3 : env.putsOk = true) (h4 : env.flushOk = true)
    (hpre : ∀ x ∈ pre, lineContinues cs x = true)
    (hskip : skipLine l = false)
    (htok : strtokQ l = some tok)
    (hmatch : containsSub cs tok = true)
    (hdate : strstrPos cs datePat = some p)
    (hd6 : ((cs.drop (p + 7)).take 6).length = 6) :
    check_whitelist env cs (pre ++ l :: rest) =
      (true, pre ++ touchDate l ((cs.drop (p + 7)).take 6) :: rest) ∧
    check_blacklist env cs (pre ++ l :: rest) =
      (true, pre ++ touchDate l ((cs.drop (p + 7)).take 6) :: rest,
        disconnectSeq) ∧
    (touchDate l ((cs.drop (p + 7)).take 6)).length = l.length ∧
    (touchDate l ((cs.drop (p + 7)).take 6)).take 19 = l.take 19 ∧
    (touchDate l ((cs.drop (p + 7)).take 6)).drop 25 = l.drop 25 ∧
    ((touchDate l ((cs.drop (p + 7)).take 6)).drop 19).take 6 =
      (cs.drop (p + 7)).take 6 ∧
    ∀ i, lineOffset (pre ++ touchDate l ((cs.drop (p + 7)).take 6) :: rest) i =
      lineOffset (pre ++ l :: rest) i := by
  have h26 : 26 ≤ l.length := by
    by_contra h
    rw [skipLine] at hskip
    simp only [Bool.or_eq_false_iff] at hskip
    exact absurd (of_decide_eq_false hskip.1.1.2) (fun hn => hn (by omega))
  obtain ⟨hlen, htake, hdrop, hseg⟩ :=
    touchDate_facts l ((cs.drop (p + 7)).take 6) hd6 h26
  have hmap : (pre ++ touchDate l ((cs.drop (p + 7)).take 6) :: rest).map
      List.length = (pre ++ l :: rest).map List.length := by
    simp [hlen]
  refine ⟨check_whitelist_match_eq env cs pre rest l tok p h1 h2 h3 h4 hpre
      hskip htok hmatch hdate,
    check_blacklist_match_eq env cs pre rest l tok p h1 h2 h3 h4 hpre
      hskip htok hmatch hdate, hlen, htake, hdrop, hseg, ?_⟩
  intro i
  rw [lineOffset, lineOffset, List.map_take, List.map_take, hmap]

/-- Witness for C3 at a concrete input: `csStd` matches `entryJunk`, whose
date field becomes `010125`. -/
theorem C3_date_update_witness :
    check_whitelist okEnv csStd [entryJunk] =
      (true, [touchDate entryJunk ((csStd.drop (2 + 7)).take 6)]) :=
  (C3_date_update okEnv csStd [] [] entryJunk "JUNK CALLER".toList 2
    rfl rfl rfl rfl (fun x hx => absurd hx (List.not_mem_nil x)) (by decide)
    (by decide) (by decide) (by decide) (by decide)).1

/-! ## C9 -/

/-- C9: in the consecutive-hit path of `tonesPoll` (either hardware
variant), a `*`-key detection is declared on a poll exactly when both
tones' consecutive-hit counters have reached `DET_MIN = 10` on that poll; a
single isolated above-threshold block (both counters zero beforehand) never
triggers that path; and a poll where a tone misses its threshold zeroes
that tone's counter while saving the previous run length in its `was`
counter. -/
theorem C9_consecutive_hits (b : Bool) (s : TonesState) (hitLo hitHi : Bool) :
    ((tonesPoll b s hitLo hitHi).2 = .consecDet ↔
      DET_MIN ≤ (updateCounters s hitLo hitHi).numDetLo ∧
        DET_MIN ≤ (updateCounters s hitLo hitHi).numDetHi) ∧
    (s.numDetLo = 0 → s.numDetHi = 0 →
      (tonesPoll b s hitLo hitHi).2 ≠ .consecDet) ∧
    (hitLo = false → (updateCounters s hitLo hitHi).numDetLo = 0 ∧
      (updateCounters s hitLo hitHi).numDetLoWas = s.numDetLo) ∧
    (hitHi = false → (updateCounters s hitLo hitHi).numDetHi = 0 ∧
      (updateCounters s hitLo hitHi).numDetHiWas = s.numDetHi) := by
  refine ⟨?_, ?_, ?_, ?_⟩
  · rw [tonesPoll]
    by_cases h : DET_MIN ≤ (updateCounters s hitLo hitHi).numDetLo ∧
        DET_MIN ≤ (updateCounters s hitLo hitHi).numDetHi
    · simp [h]
    · simp only [h, if_false, iff_false]
      by_cases hb : (beepWindow b (updateCounters s hitLo hitHi).numDetLoWas &&
          beepWindow b (updateCounters s hitLo hitHi).numDetHiWas) = true
      · simp only [hb, if_true]
        by_cases hz : (updateCounters s hitLo hitHi).numBeeps = 0 <;>
          simp [hz]
      · simp [hb, h]
  · intro hlo hhi hcon
    rw [tonesPoll] at hcon
    have hle : (updateCounters s hitLo hitHi).numDetLo ≤ 1 := by
      rw [updateCounters]
      cases hitLo <;> cases hitHi <;> simp [hlo]
    have hnc : ¬(DET_MIN ≤ (updateCounters s hitLo hitHi).numDetLo ∧
        DET_MIN ≤ (updateCounters s hitLo hitHi).numDetHi) := by
      rintro ⟨hc, -⟩
      rw [DET_MIN] at hc
      omega
    simp only [hnc, if_false] at hcon
    by_cases hb : (beepWindow b (updateCounters s hitLo hitHi).numDetLoWas &&
        beepWindow b (updateCounters s hitLo hitHi).numDetHiWas) = true
    · simp only [hb, if_true] at hcon
      by_cases hz : (updateCounters s hitLo hitHi).numBeeps = 0 <;>
        simp [hz] at hcon
    · simp [hb] at hcon
  · intro h
    rw [updateCounters]
    cases hitHi <;> simp [h]
  · intro h
    rw [updateCounters]
    cases hitLo <;> simp [h]

/-- Witness for C9 at concrete inputs: with both counters at 9, a tenth
consecutive hit on both tones declares the detection. -/
theorem C9_consecutive_hits_witness :
    (tonesPoll true ⟨9, 9, 0, 0, 0⟩ true true).2 = .consecDet :=
  (C9_consecutive_hits true ⟨9, 9, 0, 0, 0⟩ true true).1.mpr (by decide)

/-! ## C10 -/

/-- C10: whenever `tonesPoll` returns TRUE — by the consecutive-hit path or
the two-beep path, in either hardware variant — the counters `numDetLo`,
`numDetHi`, `numDetLoWas` and `numDetHiWas` are all zero on return; the
consecutive-hit path leaves `numBeeps` unchanged. -/
theorem C10_counters_reset (b : Bool) (s : TonesState) (hitLo hitHi : Bool) :
    ((tonesPoll b s hitLo hitHi).2 ≠ .noDet →
      (tonesPoll b s hitLo hitHi).1.numDetLo = 0 ∧
      (tonesPoll b s hitLo hitHi).1.numDetHi = 0 ∧
      (tonesPoll b s hitLo hitHi).1.numDetLoWas = 0 ∧
      (tonesPoll b s hitLo hitHi).1.numDetHiWas = 0) ∧
    ((tonesPoll b s hitLo hitHi).2 = .consecDet →
      (tonesPoll b s hitLo hitHi).1.numBeeps = s.numBeeps) := by
  have hnb : (updateCounters s hitLo hitHi).numBeeps = s.numBeeps := by
    rw [updateCounters]
    cases hitLo <;> cases hitHi <;> simp
  rw [tonesPoll]
  by_cases h : DET_MIN ≤ (updateCounters s hitLo hitHi).numDetLo ∧
      DET_MIN ≤ (updateCounters s hitLo hitHi).numDetHi
  · simp [h, hnb]
  · simp only [h, if_false]
    by_cases hb : (beepWindow b (updateCounters s hitLo hitHi).numDetLoWas &&
        beepWindow b (updateCounters s hitLo hitHi).numDetHiWas) = true
    · simp only [hb, if_true]
      by_cases hz : (updateCounters s hitLo hitHi).numBeeps = 0 <;> simp [hz]
    · simp [hb]

/-- Witness for C10 at concrete inputs: the second beep-pair detection of
the tonesRPi variant returns with all four counters zero. -/
theorem C10_counters_reset_witness :
    (tonesPoll false ⟨2, 2, 0, 0, 1⟩ false false).1.numDetLo = 0 ∧
    (tonesPoll false ⟨2, 2, 0, 0, 1⟩ false false).1.numDetHi = 0 ∧
    (tonesPoll false ⟨2, 2, 0, 0, 1⟩ false false).1.numDetLoWas = 0 ∧
    (tonesPoll false ⟨2, 2, 0, 0, 1⟩ false false).1.numDetHiWas = 0 :=
  (C10_counters_reset false ⟨2, 2, 0, 0, 1⟩ false false).1 (by decide)

/-! ## C5 -/

/-- `fwrite` at offset `A.length` of a file shaped `A ++ B ++ C`, writing
exactly `B.length` bytes, replaces `B`. -/
theorem writeRange_exact (A B C r : List Char) (p : Nat)
    (hp : p = A.length) (hr : r.length = B.length) :
    writeRange (A ++ B ++ C) p r = A ++ r ++ C := by
  subst hp
  rw [writeRange]
  have h1 : (A ++ B ++ C).take A.length = A := by
    rw [List.append_assoc, List.take_left]
  have h2 : (A ++ B ++ C).drop (A.length + r.length) = C := by
    rw [hr, ← List.length_append, List.drop_left]
  rw [h1, h2]

theorem takeWhile_stop (p : Char → Bool) (q : Char) (A B : List Char)
    (hq : p q = false) (hA : ∀ a ∈ A, p a = true) :
    (A ++ q :: B).takeWhile p = A := by
  induction A with
  | nil => simp [List.takeWhile_cons, hq]
  | cons a A ih =>
    rw [List.cons_append, List.takeWhile_cons, hA a (List.mem_cons_self a A)]
    rw [if_pos rfl, ih (fun x hx => hA x (List.mem_cons_of_mem _ hx))]

/-- The shape of the 80-byte entry `write_blacklist` builds: newline, token,
`?` terminator, space padding to offset 20, the six date bytes, space
padding to offset 34, the source descriptor with its NUL, and the untouched
space tail. -/
def entryShape (tok d : List Char) : List Char :=
  '\n' :: tok ++ '?' :: (List.replicate (18 - tok.length) ' ' ++
    (d ++ (List.replicate 8 ' ' ++ (srcDesc ++ '\x00' :: List.replicate 34 ' '))))

theorem entryShape_token (tok d : List Char) (hq : '?' ∉ tok) :
    tokenOfEntry (entryShape tok d) = tok := by
  have hdrop : (entryShape tok d).drop 1 =
      tok ++ '?' :: (List.replicate (18 - tok.length) ' ' ++
        (d ++ (List.replicate 8 ' ' ++
          (srcDesc ++ '\x00' :: List.replicate 34 ' ')))) := rfl
  rw [tokenOfEntry, hdrop]
  refine takeWhile_stop _ '?' tok _ (by simp) ?_
  intro a ha
  simp only [decide_eq_true_eq]
  exact fun h => hq (h ▸ ha)

/-- Composing the five buffer writes of `write_blacklist` yields
`entryShape` (token at most 17 bytes, six date bytes). -/
theorem entry_chain (tok d : List Char) (hk : tok.length ≤ 17)
    (hd : d.length = 6) :
    writeRange (writeRange (writeRange (writeRange (writeRange
      (List.replicate 80 ' ') 0 ['\n']) 1 tok) (tok.length + 1) ['?'])
      20 d) 34 (srcDesc ++ ['\x00']) = entryShape tok d := by
  have h0 : writeRange (List.replicate 80 ' ') 0 ['\n'] =
      ['\n'] ++ List.replicate 79 ' ' := by
    have hsp : List.replicate (80 : Nat) ' ' =
        ([] ++ [' ']) ++ List.replicate 79 ' ' := by
      simp [List.replicate_succ]
    rw [hsp, writeRange_exact [] [' '] _ ['\n'] 0 rfl rfl]
    rfl
  have h1 : writeRange (['\n'] ++ List.replicate 79 ' ') 1 tok =
      (['\n'] ++ tok) ++ List.replicate (79 - tok.length) ' ' := by
    have hsp : ['\n'] ++ List.replicate (79 : Nat) ' ' =
        (['\n'] ++ List.replicate tok.length ' ') ++
          List.replicate (79 - tok.length) ' ' := by
      have hrep : List.replicate (79 : Nat) ' ' =
          List.replicate tok.length ' ' ++
            List.replicate (79 - tok.length) ' ' := by
        rw [← List.replicate_add]
        congr 1
        omega
      rw [hrep, ← List.append_assoc]
    rw [hsp, writeRange_exact ['\n'] (List.replicate tok.length ' ') _ tok 1
      rfl (by simp)]
  have h2 : writeRange ((['\n'] ++ tok) ++ List.replicate (79 - tok.length) ' ')
      (tok.length + 1) ['?'] =
      ((['\n'] ++ tok) ++ ['?']) ++ List.replicate (78 - tok.length) ' ' := by
    have hsp : (['\n'] ++ tok) ++ List.replicate (79 - tok.length) ' ' =
        ((['\n'] ++ tok) ++ [' ']) ++ List.replicate (78 - tok.length) ' ' := by
      have hrep : List.replicate (79 - tok.length) ' ' =
          [' '] ++ List.replicate (78 - tok.length) ' ' := by
        rw [show 79 - tok.length = 1 + (78 - tok.length) from by omega,
          List.replicate_add]
        rfl
      rw [hrep, ← List.append_assoc]
    rw [hsp, writeRange_exact (['\n'] ++ tok) [' '] _ ['?'] (tok.length + 1)
      (by simp [Nat.add_comm]) rfl]
  have h3 : writeRange (((['\n'] ++ tok) ++ ['?']) ++
        List.replicate (78 - tok.length) ' ') 20 d =
      ((((['\n'] ++ tok) ++ ['?']) ++ List.replicate (18 - tok.length) ' ')
        ++ d) ++ List.replicate 54 ' ' := by
    have hrep : List.replicate (78 - tok.length) ' ' =
        (List.replicate (18 - tok.length) ' ' ++ List.replicate 6 ' ') ++
          List.replicate 54 ' ' := by
      rw [← List.replicate_add, ← List.replicate_add]
      congr 1
      omega
    rw [hrep, ← List.append_assoc, ← List.append_assoc]
    rw [writeRange_exact ((['\n'] ++ tok) ++ ['?'] ++
        List.replicate (18 - tok.length) ' ') (List.replicate 6 ' ') _ d 20
      (by simp; omega) (by simp [hd])]
  have h4 : writeRange (((((['\n'] ++ tok) ++ ['?']) ++
        List.replicate (18 - tok.length) ' ') ++ d) ++
        List.replicate 54 ' ') 34 (srcDesc ++ ['\x00']) =
      ((((((['\n'] ++ tok) ++ ['?']) ++ List.replicate (18 - tok.length) ' ')
        ++ d) ++ List.replicate 8 ' ') ++ (srcDesc ++ ['\x00'])) ++
        List.replicate 34 ' ' := by
    have hrep : List.replicate (54 : Nat) ' ' =
        (List.replicate 8 ' ' ++ List.replicate 12 ' ') ++
          List.replicate 34 ' ' := by
      rw [← List.replicate_add, ← List.replicate_add]
    rw [hrep, ← List.append_assoc, ← List.append_assoc]
    rw [writeRange_exact (((((['\n'] ++ tok) ++ ['?']) ++
        List.replicate (18 - tok.length) ' ') ++ d) ++ List.replicate 8 ' ')
      (List.replicate 12 ' ') _ (srcDesc ++ ['\x00']) 34
      (by simp [hd]; omega) (by simp [srcDesc])]
  rw [h0, h1, h2, h3, h4]
  simp [entryShape, List.append_assoc]

/-- `buildEntry` produces `entryShape` with the token the `Cell Phone` test
selects: the bytes at the hard-coded offset 37 at the computed NMBR width
when the NAME field contains `Cell Phone`, the NAME bytes otherwise. -/
theorem buildEntry_shape (cs : List Char) (ni mi : Nat) (tok : List Char)
    (hn : strstrPos cs namePat = some ni)
    (hm : strstrPos cs nmbrPat = some mi)
    (htok : tok = if containsSub (cs.drop (ni + 7)) cellPat
      then (cs.drop 37).take ((((ni : Int) - 2) - ((mi : Int) + 7)).toNat)
      else (cs.drop (ni + 7)).take
        ((((cs.drop (ni + 7)).length : Int) - 3).toNat))
    (hlenN : (((ni : Int) - 2) - ((mi : Int) + 7)).toNat ≤ (cs.drop 37).length)
    (hk : tok.length ≤ 17)
    (hd6 : ((cs.drop 9).take 6).length = 6) :
    buildEntry cs = some (entryShape tok ((cs.drop 9).take 6)) := by
  rw [buildEntry]
  simp only [hn, hm]
  cases hcell : containsSub (cs.drop (ni + 7)) cellPat with
  | true =>
    have htok2 : tok =
        (cs.drop 37).take ((((ni : Int) - 2) - ((mi : Int) + 7)).toNat) := by
      rw [htok, if_pos hcell]
    have hlen : ((((ni : Int) - 2) - ((mi : Int) + 7)).toNat) = tok.length := by
      rw [htok2, List.length_take]
      omega
    simp only [hcell, if_true, Option.some.injEq]
    rw [hlen] at htok2
    rw [hlen, ← htok2, entry_chain tok _ hk hd6]
  | false =>
    have htok2 : tok = (cs.drop (ni + 7)).take
        ((((cs.drop (ni + 7)).length : Int) - 3).toNat) := by
      rw [htok, if_neg (by rw [hcell]; exact Bool.false_ne_true)]
    have hlen : ((((cs.drop (ni + 7)).length : Int) - 3).toNat) =
        tok.length := by
      rw [htok2, List.length_take]
      omega
    simp only [hcell, Bool.false_eq_true, if_false, Option.some.injEq]
    rw [hlen] at htok2
    rw [hlen, ← htok2, entry_chain tok _ hk hd6]

theorem containsSub_of_head (hay needle : List Char)
    (h : tokenAtHead needle hay = true) : containsSub hay needle = true := by
  cases hay with
  | nil => rw [containsSub]; exact h
  | cons b bs => rw [containsSub]; simp [h]

/-- C5 (amended): the match token of the entry `write_blacklist` builds is
the byte string at the hard-coded offset 37 of the record (the standard
NMBR-value position) at the computed NMBR width whenever the NAME field
CONTAINS `Cell Phone` anywhere — in particular whenever it begins with it —
and exactly the NAME field's characters only when the NAME field does not
contain `Cell Phone`. -/
theorem C5_cell_phone_guard (cs : List Char) (ni mi : Nat)
    (hn : strstrPos cs namePat = some ni)
    (hm : strstrPos cs nmbrPat = some mi)
    (hlenN : (((ni : Int) - 2) - ((mi : Int) + 7)).toNat ≤ (cs.drop 37).length)
    (hkN : (((ni : Int) - 2) - ((mi : Int) + 7)).toNat ≤ 17)
    (hkA : (((cs.drop (ni + 7)).length : Int) - 3).toNat ≤ 17)
    (hd6 : ((cs.drop 9).take 6).length = 6)
    (hq1 : '?' ∉ (cs.drop 37).take ((((ni : Int) - 2) - ((mi : Int) + 7)).toNat))
    (hq2 : '?' ∉ (cs.drop (ni + 7)).take
      ((((cs.drop (ni + 7)).length : Int) - 3).toNat)) :
    (containsSub (cs.drop (ni + 7)) cellPat = true →
      (buildEntry cs).map tokenOfEntry =
        some ((cs.drop 37).take ((((ni : Int) - 2) - ((mi : Int) + 7)).toNat))) ∧
    (containsSub (cs.drop (ni + 7)) cellPat = false →
      (buildEntry cs).map tokenOfEntry =
        some ((cs.drop (ni + 7)).take
          ((((cs.drop (ni + 7)).length : Int) - 3).toNat))) ∧
    (tokenAtHead cellPat (cs.drop (ni + 7)) = true →
      (buildEntry cs).map tokenOfEntry =
        some ((cs.drop 37).take ((((ni : Int) - 2) - ((mi : Int) + 7)).toNat))) := by
  have bN : containsSub (cs.drop (ni + 7)) cellPat = true →
      (buildEntry cs).map tokenOfEntry =
        some ((cs.drop 37).take ((((ni : Int) - 2) - ((mi : Int) + 7)).toNat)) := by
    intro hcell
    have hsh := buildEntry_shape cs ni mi
      ((cs.drop 37).take ((((ni : Int) - 2) - ((mi : Int) + 7)).toNat))
      hn hm (by rw [if_pos hcell]) hlenN
      (by rw [List.length_take]; omega) hd6
    rw [hsh]
    exact congrArg some (entryShape_token _ _ hq1)
  refine ⟨bN, ?_, fun hh => bN (containsSub_of_head _ _ hh)⟩
  intro hcell
  have hsh := buildEntry_shape cs ni mi
    ((cs.drop (ni + 7)).take ((((cs.drop (ni + 7)).length : Int) - 3).toNat))
    hn hm (by rw [if_neg (by rw [hcell]; exact Bool.false_ne_true)]) hlenN
    (by rw [List.length_take]; omega) hd6
  rw [hsh]
  exact congrArg some (entryShape_token _ _ hq2)

/-- Witness for C5 at a concrete input: the NAME field of `csStd` does not
contain `Cell Phone`, so the token is the NAME field's 15 characters. -/
theorem C5_cell_phone_guard_witness :
    (buildEntry csStd).map tokenOfEntry =
      some ((csStd.drop (49 + 7)).take
        ((((csStd.drop (49 + 7)).length : Int) - 3).toNat)) :=
  (C5_cell_phone_guard csStd 49 30 (by decide) (by decide) (by decide)
    (by decide) (by decide) (by decide) (by decide) (by decide)).2.1
    (by decide)

/-- A record whose NAME field contains `Cell Phone` without beginning with
it. -/
def csCell : List Char :=
  "--DATE = 010125--TIME = 1030--NMBR = 5551234567--NAME = MY Cell Phone  --\n".toList

/-- Counterexample to C5 as stated: the NAME field `MY Cell Phone  ` does
not begin with `Cell Phone`, yet the built entry's token is the NMBR field
`5551234567`, not the NAME field's characters as the claim requires. -/
theorem C5_counterexample :
    strstrPos csCell namePat = some 49 ∧
    tokenAtHead cellPat (csCell.drop (49 + 7)) = false ∧
    (buildEntry csCell).map tokenOfEntry = some "5551234567".toList ∧
    "5551234567".toList ≠ (csCell.drop (49 + 7)).take 15 :=
  ⟨by decide, by decide, by decide, by decide⟩

/-! ## C7 -/

theorem eqSpacedBefore_cons (x : Char) (l : List Char)
    (hx : l[0]? = some '=' → x = ' ') (hl : eqSpacedBefore l) :
    eqSpacedBefore (x :: l) := by
  intro i hi
  cases i with
  | zero =>
    rw [List.getElem?_cons_succ] at hi
    rw [List.getElem?_cons_zero, hx hi]
  | succ n =>
    rw [List.getElem?_cons_succ] at hi
    rw [List.getElem?_cons_succ]
    exact hl n hi

theorem eqSpacedBefore_tail (x : Char) (l : List Char)
    (h : eqSpacedBefore (x :: l)) : eqSpacedBefore l := by
  intro i hi
  have h2 := h (i + 1) (by rw [List.getElem?_cons_succ]; exact hi)
  rw [List.getElem?_cons_succ] at h2
  exact h2

theorem eqSpacedBefore_head (x : Char) (l : List Char)
    (h : eqSpacedBefore (x :: l)) (h0 : l[0]? = some '=') : x = ' ' := by
  have h2 := h 0 (by rw [List.getElem?_cons_succ]; exact h0)
  rw [List.getElem?_cons_zero] at h2
  exact Option.some.inj h2

/-- The output of the spacing pass never starts with `=` unless the previous
original character was a space, and every `=` it emits follows a space. -/
theorem insertEqSpaces_spaced (l : List Char) :
    ∀ prev, eqSpacedBefore (prev :: insertEqSpaces prev l) := by
  induction l with
  | nil =>
    intro prev i hi
    cases i <;> simp [insertEqSpaces] at hi
  | cons c rest ih =>
    intro prev
    by_cases hc : c = '='
    · subst hc
      by_cases hp : prev = ' '
      · subst hp
        rw [insertEqSpaces]
        simp only [if_pos rfl, ite_not, if_pos rfl]
        exact eqSpacedBefore_cons ' ' _ (fun _ => rfl) (ih '=')
      · rw [insertEqSpaces]
        simp only [if_pos rfl, if_neg hp, ite_not]
        have hS : eqSpacedBefore (insertEqSpaces '=' rest) :=
          eqSpacedBefore_tail '=' _ (ih '=')
        have hS0 : (insertEqSpaces '=' rest)[0]? = some '=' → False := by
          intro h0
          exact absurd (eqSpacedBefore_head '=' _ (ih '=') h0) (by decide)
        by_cases hh : rest.headD '\x00' = ' '
        · simp only [if_pos hh, List.nil_append]
          refine eqSpacedBefore_cons prev _ (by simp) ?_
          refine eqSpacedBefore_cons ' ' _ (fun _ => rfl) ?_
          exact eqSpacedBefore_cons '=' _ (fun h0 => absurd h0 hS0) hS
        · simp only [if_neg hh, List.cons_append, List.nil_append]
          refine eqSpacedBefore_cons prev _ (by simp) ?_
          refine eqSpacedBefore_cons ' ' _ (fun _ => rfl) ?_
          refine eqSpacedBefore_cons '=' _ (by simp) ?_
          exact eqSpacedBefore_cons ' ' _ (fun _ => rfl) hS
    · rw [insertEqSpaces]
      simp only [if_neg hc]
      refine eqSpacedBefore_cons prev _ ?_ (ih c)
      intro h0
      rw [List.getElem?_cons_zero] at h0
      exact absurd (Option.some.inj h0) hc

/-- The spacing pass only inserts spaces: the non-space characters come
through unchanged and in order. -/
theorem insertEqSpaces_filter (l : List Char) :
    ∀ prev, (insertEqSpaces prev l).filter (· ≠ ' ') = l.filter (· ≠ ' ') := by
  induction l with
  | nil => intro prev; rfl
  | cons c rest ih =>
    intro prev
    have ihn : ∀ q, (insertEqSpaces q rest).filter (fun x => !decide (x = ' '))
        = rest.filter (fun x => !decide (x = ' ')) := by
      intro q
      have h := ih q
      simpa using h
    simp only [ne_eq, decide_not]
    by_cases hc : c = '='
    · subst hc
      by_cases hp : prev = ' '
      · rw [insertEqSpaces]
        simp only [if_pos rfl, ite_not, if_pos hp]
        simp [List.filter_cons, ihn '=']
      · rw [insertEqSpaces]
        simp only [if_pos rfl, if_neg hp, ite_not]
        by_cases hh : rest.headD '\x00' = ' '
        · simp only [if_pos hh, List.nil_append]
          simp [List.filter_cons, ihn '=']
        · simp only [if_neg hh, List.cons_append, List.nil_append]
          simp [List.filter_cons, ihn '=']
    · rw [insertEqSpaces]
      simp only [if_neg hc]
      rw [List.filter_cons, List.filter_cons, ihn c]

/-- The original buffer is a subsequence of the spacing pass's output. -/
theorem insertEqSpaces_sublist (l : List Char) :
    ∀ prev, List.Sublist l (insertEqSpaces prev l) := by
  induction l with
  | nil => intro prev; simp [insertEqSpaces]
  | cons c rest ih =>
    intro prev
    by_cases hc : c = '='
    · subst hc
      by_cases hp : prev = ' '
      · rw [insertEqSpaces]
        simp only [if_pos rfl, ite_not, if_pos hp]
        exact (ih '=').cons₂ '='
      · rw [insertEqSpaces]
        simp only [if_pos rfl, if_neg hp, ite_not]
        by_cases hh : rest.headD '\x00' = ' '
        · simp only [if_pos hh, List.nil_append]
          exact ((ih '=').cons₂ '=').cons ' '
        · simp only [if_neg hh, List.cons_append, List.nil_append]
          exact (((ih '=').cons ' ').cons₂ '=').cons ' '
    · rw [insertEqSpaces]
      simp only [if_neg hc]
      exact (ih c).cons₂ c

/-- C7 (amended): the space-normalization pass copies every original byte
through in order (only inserting spaces), guarantees at least one space
immediately before every `=` of its output, and, for a fully packed
`TAG=VALUE` (no space on either side of the `=`), inserts exactly one space
on each side; but an `=` already preceded by a space is copied unchanged
even when no space follows, and pre-existing repeated spaces are kept. -/
theorem C7_eq_spacing (prev c1 c2 : Char) (l r : List Char) :
    (insertEqSpaces prev l).filter (· ≠ ' ') = l.filter (· ≠ ' ') ∧
    List.Sublist l (insertEqSpaces prev l) ∧
    eqSpacedBefore (prev :: insertEqSpaces prev l) ∧
    (c1 ≠ ' ' → c1 ≠ '=' → c2 ≠ ' ' →
      insertEqSpaces prev (c1 :: '=' :: c2 :: r) =
        c1 :: ' ' :: '=' :: ' ' :: insertEqSpaces '=' (c2 :: r)) := by
  refine ⟨insertEqSpaces_filter l prev, insertEqSpaces_sublist l prev,
    insertEqSpaces_spaced l prev, ?_⟩
  intro h1 h2 h3
  rw [insertEqSpaces]
  simp only [if_neg h2]
  rw [insertEqSpaces]
  simp only [if_pos rfl, if_neg h1, ite_not, List.headD_cons, if_neg h3]
  simp

/-- Witness for C7 at a concrete input: the packed record fragment `R=V`
receives a space on both sides of its `=`. -/
theorem C7_eq_spacing_witness :
    insertEqSpaces 'x' "R=V\n".toList =
      'R' :: ' ' :: '=' :: ' ' :: insertEqSpaces '=' "V\n".toList :=
  (C7_eq_spacing 'x' 'R' 'V' [] "\n".toList).2.2.2 (by decide) (by decide)
    (by decide)

/-- Counterexample to C7 as stated: in `A  =B\n` the `=` is preceded by two
spaces and followed directly by `B`, and the pass leaves the buffer
unchanged — so the output does not have exactly one space before and one
space after every `=`. -/
theorem C7_counterexample :
    insertEqSpaces 'x' "A  =B\n".toList = "A  =B\n".toList ∧
    ("A  =B\n".toList)[3]? = some '=' ∧
    ("A  =B\n".toList)[2]? = some ' ' ∧
    ("A  =B\n".toList)[1]? = some ' ' ∧
    ("A  =B\n".toList)[4]? = some 'B' :=
  ⟨by decide, by decide, by decide, by decide, by decide⟩

/-! ## C6 -/

/-- C6: when a whitelist is configured and its lookup returns match, the
call is accepted and `check_blacklist` is never invoked, so the blacklist
file is neither scanned nor modified, no modem commands are issued and the
state machine returns straight to the idle read. -/
theorem C6_whitelist_precedence (envW envB : Env) (reopenOkWr : Bool)
    (wfile bl : List Line) (cs : List Char) (rings : Nat) (star : Bool)
    (h : (check_whitelist envW cs wfile).1 = true) :
    wait_for_response_step envW envB reopenOkWr (some wfile) bl cs rings star =
      ⟨some (check_whitelist envW cs wfile).2, bl.flatten, false, [], false⟩ := by
  rw [wait_for_response_step]
  simp [h]

/-- Witness for C6 at a concrete input: `csStd` matches the whitelist entry,
and even with the same entry on the blacklist, three rings and a detected
star key, the blacklist is untouched. -/
theorem C6_whitelist_precedence_witness :
    wait_for_response_step okEnv okEnv true (some [entryJunk]) [entryJunk]
        csStd 3 true =
      ⟨some (check_whitelist okEnv csStd [entryJunk]).2, [entryJunk].flatten,
        false, [], false⟩ :=
  C6_whitelist_precedence okEnv okEnv true [entryJunk] [entryJunk] csStd 3
    true (by decide)

/-! ## C8 -/

/-- C8 (amended): a call whose record matches a blacklist entry always gets
the disconnect sequence (DTR pulse without caller-ID, 250 ms, ATH1, 1 s,
ATH0, 1 s, DTR pulse with caller-ID); when the record carries a `DATE = `
field the maintenance hook is then signalled and the machine returns to
idle, but when the field is missing `check_blacklist` returns no-match, so
the hook is not signalled and the machine instead continues into the
ring-polling `*`-key branch. -/
theorem C8_blacklist_match_flow (envW envB : Env) (reopenOkWr : Bool)
    (cs : List Char) (pre rest : List Line) (l : Line) (tok : List Char)
    (rings : Nat) (star : Bool)
    (h1 : envB.reopenOk = true) (h2 : envB.ftellOk = true)
    (h3 : envB.putsOk = true) (h4 : envB.flushOk = true)
    (hpre : ∀ x ∈ pre, lineContinues cs x = true)
    (hskip : skipLine l = false)
    (htok : strtokQ l = some tok)
    (hmatch : containsSub cs tok = true) :
    (∀ p, strstrPos cs datePat = some p →
      (wait_for_response_step envW envB reopenOkWr none (pre ++ l :: rest) cs
        rings star).acts = disconnectSeq ++ [.truncateHook] ∧
      (wait_for_response_step envW envB reopenOkWr none (pre ++ l :: rest) cs
        rings star).starPath = false) ∧
    (strstrPos cs datePat = none →
      (wait_for_response_step envW envB reopenOkWr none (pre ++ l :: rest) cs
        rings star).starPath = true ∧
      ModemAct.truncateHook ∉
        (wait_for_response_step envW envB reopenOkWr none (pre ++ l :: rest)
          cs rings star).acts ∧
      ((wait_for_response_step envW envB reopenOkWr none (pre ++ l :: rest)
          cs rings star).acts).take 7 = disconnectSeq) := by
  constructor
  · intro p hp
    have hb := check_blacklist_match_eq envB cs pre rest l tok p h1 h2 h3 h4
      hpre hskip htok hmatch hp
    rw [wait_for_response_step]
    simp [hb]
  · intro hp
    have hb := check_blacklist_nodate_eq envB cs pre rest l tok h1 h2 hpre
      hskip htok hmatch hp
    by_cases hr : rings = 3
    · refine ⟨?_, ?_, ?_⟩ <;>
        simp [wait_for_response_step, hb, hr, disconnectSeq]
    · refine ⟨?_, ?_, ?_⟩ <;>
        simp [wait_for_response_step, hb, hr, disconnectSeq]

/-- Witness for C8 at a concrete input: `csStd` (which has a date field)
matching the blacklist entry produces the disconnect trace followed by the
maintenance hook, and no `*`-key branch. -/
theorem C8_blacklist_match_flow_witness :
    (wait_for_response_step okEnv okEnv true none [entryJunk] csStd 1
      false).acts = disconnectSeq ++ [.truncateHook] ∧
    (wait_for_response_step okEnv okEnv true none [entryJunk] csStd 1
      false).starPath = false :=
  ((C8_blacklist_match_flow okEnv okEnv true csStd [] [] entryJunk
    "JUNK CALLER".toList 1 false rfl rfl rfl rfl
    (fun x hx => absurd hx (List.not_mem_nil x)) (by decide) (by decide)
    (by decide)).1) 2 (by decide)

/-- A normalized record with NMBR and NAME fields but no `DATE = ` field. -/
def csNoDate : List Char := "--NMBR = 5551234567--NAME = JUNK CALLER    --\n".toList

/-! ## C4 -/

/-- The bytes `write_blacklist` actually writes for `csStd`: the entry up to
the NUL that `strncpy` placed after the source descriptor — 45 bytes, not
the 80-byte buffer. -/
def entry45 : List Char :=
  "\nJUNK CALLER    ?   010125        *-KEY ENTRY".toList

/-- The full 80-byte buffer built for `csStd`: the written part, the NUL,
and the never-written tail of spaces. -/
def entry80 : List Char := entry45 ++ '\x00' :: List.replicate 34 ' '

/-- A 120-byte blacklist file whose last byte is `\n` (and second-to-last is
not), as in the spec's editor-trailing-newline scenario. -/
def file120 : List Char := List.replicate 119 'x' ++ ['\n']

/-- C4 (amended): `write_blacklist` builds the 80-byte space-padded record
(leading `\n`, token from offset 1 terminated by `?`, date at 20..25,
`*-KEY ENTRY` at 34) but writes only its `strlen` — the 45 bytes up to the
NUL after the source descriptor; if the file's second-to-last byte is `\n`
the write starts two bytes before the end, else if the last byte is `\n`
one byte before the end (the record's leading `\n` overwriting it), else at
end-of-file. -/
theorem C4_append_entry (file : List Char) (h2 : 2 ≤ file.length) :
    entry45.length = 45 ∧
    buildEntry csStd = some entry80 ∧
    entry80.takeWhile (· ≠ '\x00') = entry45 ∧
    entry45[0]? = some '\n' ∧
    tokenOfEntry entry45 = "JUNK CALLER    ".toList ∧
    (entry45.drop 20).take 6 = "010125".toList ∧
    (entry45.drop 34).take 11 = srcDesc ∧
    (file[file.length - 2]? = some '\n' →
      write_blacklist true csStd file =
        some (writeRange file (file.length - 2) entry45)) ∧
    (file[file.length - 2]? ≠ some '\n' → file[file.length - 1]? = some '\n' →
      write_blacklist true csStd file =
        some (writeRange file (file.length - 1) entry45)) ∧
    (file[file.length - 2]? ≠ some '\n' → file[file.length - 1]? ≠ some '\n' →
      write_blacklist true csStd file = some (file ++ entry45)) := by
  have hbe : buildEntry csStd = some entry80 := by decide
  have hwr : entry80.takeWhile (· ≠ '\x00') = entry45 := by decide
  have hnl : ¬file.length < 2 := by omega
  refine ⟨by decide, hbe, hwr, by decide, by decide, by decide, by decide,
    ?_, ?_, ?_⟩
  · intro ha
    rw [write_blacklist]
    simp only [Bool.not_true, Bool.false_eq_true, if_false, if_neg hnl, hbe,
      hwr, if_pos ha]
  · intro ha hb
    rw [write_blacklist]
    simp only [Bool.not_true, Bool.false_eq_true, if_false, if_neg hnl, hbe,
      hwr, if_neg ha, if_pos hb]
  · intro ha hb
    rw [write_blacklist]
    simp only [Bool.not_true, Bool.false_eq_true, if_false, if_neg hnl, hbe,
      hwr, if_neg ha, if_neg hb]
    rw [writeRange, List.take_length, List.drop_eq_nil_of_le (by omega),
      List.append_nil]

/-- Witness for C4 at a concrete input: appending to the 120-byte file whose
last byte is `\n` overwrites that newline with the record's leading one. -/
theorem C4_append_entry_witness :
    write_blacklist true csStd file120 =
      some (writeRange file120 (file120.length - 1) entry45) :=
  ((C4_append_entry file120 (by decide)).2.2.2.2.2.2.2.2.1) (by decide)
    (by decide)

/-- Counterexample to C4 as stated: after appending to the 120-byte file
ending in `\n`, the file is 164 bytes (119 + 45), not the 199 the claim
derives from an 80-byte record. -/
theorem C4_counterexample :
    file120.length = 120 ∧
    file120[119]? = some '\n' ∧
    file120[118]? = some 'x' ∧
    (write_blacklist true csStd file120).map List.length = some 164 :=
  ⟨by decide, by decide, by decide, by decide⟩

/-- Counterexample to C8 as stated: a record that matches a blacklist entry
but lacks the `DATE = ` field gets the disconnect sequence, yet the
maintenance hook is never signalled and the machine proceeds into the
`*`-key branch rather than returning to idle — more than the list-date
update is aborted. -/
theorem C8_counterexample :
    containsSub csNoDate "JUNK CALLER".toList = true ∧
    strstrPos csNoDate datePat = none ∧
    (wait_for_response_step okEnv okEnv true none [entryJunk] csNoDate 1
      false).acts = disconnectSeq ∧
    ModemAct.truncateHook ∉
      (wait_for_response_step okEnv okEnv true none [entryJunk] csNoDate 1
        false).acts ∧
    (wait_for_response_step okEnv okEnv true none [entryJunk] csNoDate 1
      false).starPath = true :=
  ⟨by decide, by decide, by decide, by decide, by decide⟩

end Jcblock
